import Mathlib

/-!
Verification of the SSE (server-sent events) streaming core of this
repository: the tracked-envelope data model, the stream producer
(`sseStreamProducer`), and the stream consumer (`sseStreamConsumer`).

The repository snapshot contains the test suite
(`packages/server/src/unstable-core-do-not-import/stream/sse.test.ts`)
but not `sse.ts` / `tracked.ts` themselves, so the producer, consumer and
envelope operations below are modelled from the specification (sections 3,
4.1, 4.2, 6, 7) and cross-checked against the wire snapshots recorded in
the test file.
-/

/-- Modelled from the spec: a source item fed to the producer
(`T | TrackedEnvelope<T>`, spec section 3 and 4.1).  A tracked envelope is a
value annotated with a resumption id; an envelope without an id behaves on
the wire exactly as a bare value (only a `data:` line is emitted for it),
so the model folds the id-less envelope into `bare`. -/
inductive StreamItem (V : Type) where
  | bare (v : V)
  | envelope (evId : String) (v : V)
deriving DecidableEq, Repr

/-- Modelled from the spec: the `sse` constructor of `tracked.ts` builds a
tracked envelope from an id and a payload (test `sse()` in `sse.test.ts`). -/
def sse {V : Type} (evId : String) (v : V) : StreamItem V :=
  StreamItem.envelope evId v

/-- Modelled from the spec: the `isTrackedEnvelope` recogniser of
`tracked.ts` — decides whether a source item is a tracked envelope. -/
def isTrackedEnvelope {V : Type} : StreamItem V → Bool
  | StreamItem.bare _ => false
  | StreamItem.envelope _ _ => true

/-- The field names of the wire protocol (spec section 3, Wire Event):
`event`, `data` and `id`. -/
inductive FieldName where
  | event
  | data
  | id
deriving DecidableEq, Repr

/-- Modelled from the spec: one line of the text wire protocol.  A field
line `field n v` renders as `n: v`, a comment line `comment t` renders as
`:t` (heartbeats are `: ping`), and `blank` is the empty line terminating a
wire event (spec sections 3 and 6). -/
inductive WireLine where
  | field (name : FieldName) (value : String)
  | comment (text : String)
  | blank
deriving DecidableEq, Repr

/-- Modelled from the spec: a wire event before serialization — an optional
`event:` name, an optional `data:` payload (already serialized to a string)
and an optional `id:` (spec section 3, Wire Event). -/
structure SSEvent where
  name : Option String
  data : Option String
  evId : Option String
deriving DecidableEq, Repr

/-- Serialization of one wire event to lines: each present field on its own
line — `event:` first, then `data:`, then `id:` — terminated by one blank
line (spec sections 3 and 6: order-independent except that `data` must
precede `id`). -/
def eventLines (e : SSEvent) : List WireLine :=
  (match e.name with
    | some n => [WireLine.field FieldName.event n]
    | none => []) ++
  (match e.data with
    | some d => [WireLine.field FieldName.data d]
    | none => []) ++
  (match e.evId with
    | some i => [WireLine.field FieldName.id i]
    | none => []) ++
  [WireLine.blank]

/-- A heartbeat: the comment line `: ping` followed by a blank line (spec
sections 4.1.3 and 6).  It has no fields, in particular no id. -/
def heartbeatLines : List WireLine :=
  [WireLine.comment " ping", WireLine.blank]

/-- The `connected` lifecycle event: `event: connected` with an empty
payload (`data: \x7b\x7d` in the test snapshot) and no id (spec
section 4.1.1). -/
def connectedEvent : SSEvent :=
  { name := some "connected", data := some "\x7b\x7d", evId := none }

/-- Modelled from the spec: one pull from the producer's source sequence —
either a value is synchronously available, or the source is not ready
(a suspension point), or it is exhausted, or it threw (spec section 4.1). -/
inductive Pull (V E : Type) where
  | value (item : StreamItem V)
  | pending
  | done
  | fail (e : E)
deriving DecidableEq, Repr

/-- Modelled from the spec: the producer's configuration — the injected
`serialize` function (applied to data payloads and, tagged distinctly, to
source errors) and the `emitAndEndImmediately` mode flag (spec
section 4.1). -/
structure ProducerCfg (V E : Type) where
  serialize : V → String
  serializeErr : E → String
  emitAndEndImmediately : Bool

/-- The wire event for one source item: a tracked envelope serializes its
payload on a `data:` line followed by an `id:` line; a bare value emits
only `data:` (spec section 4.1.2). -/
def itemEvent {V E : Type} (cfg : ProducerCfg V E) : StreamItem V → SSEvent
  | StreamItem.bare v =>
      { name := none, data := some (cfg.serialize v), evId := none }
  | StreamItem.envelope i v =>
      { name := none, data := some (cfg.serialize v), evId := some i }

/-- Modelled from the spec: the producer's pull loop over its source.  For a
value, emit its wire event and continue.  At a suspension point, close the
sink if `emitAndEndImmediately` is set, else emit a heartbeat and keep
waiting.  When the source is exhausted, close the sink.  When the source
throws, serialize the error (tagged distinctly from data), write it as a
final wire event, close the sink, and do not rethrow (spec sections 4.1.3,
4.1.4, 4.1.6).  Returns the lines written and whether the sink was closed
(`false` means the connection is still live and was cut externally). -/
def produceAux {V E : Type} (cfg : ProducerCfg V E) :
    List (Pull V E) → List WireLine × Bool
  | [] => ([], false)
  | Pull.value it :: ps =>
      let r := produceAux cfg ps
      (eventLines (itemEvent cfg it) ++ r.1, r.2)
  | Pull.pending :: ps =>
      if cfg.emitAndEndImmediately then ([], true)
      else
        let r := produceAux cfg ps
        (heartbeatLines ++ r.1, r.2)
  | Pull.done :: _ => ([], true)
  | Pull.fail e :: _ =>
      (eventLines { name := none, data := some (cfg.serializeErr e),
                    evId := none }, true)

/-- Modelled from the spec: the full producer (`sseStreamProducer`).  On
start it unconditionally emits the `connected` lifecycle event, then runs
the pull loop (spec section 4.1.1). -/
def produce {V E : Type} (cfg : ProducerCfg V E) (pulls : List (Pull V E)) :
    List WireLine × Bool :=
  let r := produceAux cfg pulls
  (eventLines connectedEvent ++ r.1, r.2)

/-- The empty parser accumulator: no field seen yet in the current wire
event. -/
def emptyEvent : SSEvent :=
  { name := none, data := none, evId := none }

/-- One field line updates the parser accumulator for the current wire
event. -/
def setField (acc : SSEvent) : FieldName → String → SSEvent
  | FieldName.event, v => { acc with name := some v }
  | FieldName.data, v => { acc with data := some v }
  | FieldName.id, v => { acc with evId := some v }

/-- Modelled from the spec: a parsed message as delivered to the consumer —
a wire event that actually carried a `data:` payload (spec section 3: data
is required unless the event is a pure heartbeat). -/
structure Message where
  name : Option String
  data : String
  evId : Option String
deriving DecidableEq, Repr

/-- On a blank line the accumulated wire event is dispatched as a message
if it carried a data payload; otherwise (pure heartbeat or empty group)
nothing is dispatched. -/
def dispatch (acc : SSEvent) : List Message :=
  match acc.data with
  | some d => [{ name := acc.name, data := d, evId := acc.evId }]
  | none => []

/-- Modelled from the spec: the consumer-side line parser.  Field lines
accumulate, comment lines are skipped as no-ops, a blank line terminates
the current wire event and dispatches it; a trailing group not terminated
by a blank line is never dispatched (spec sections 3, 4.2, 7.4). -/
def parseEventsAux (acc : SSEvent) : List WireLine → List Message
  | [] => []
  | WireLine.blank :: ls => dispatch acc ++ parseEventsAux emptyEvent ls
  | WireLine.comment _ :: ls => parseEventsAux acc ls
  | WireLine.field n v :: ls => parseEventsAux (setField acc n v) ls

/-- Parse a whole connection's lines into the dispatched messages. -/
def parseEvents (ls : List WireLine) : List Message :=
  parseEventsAux emptyEvent ls

/-- Modelled from the spec: a consumer output item — `connecting` (one per
connection attempt), `data` (a deserialized payload) or `serializedError`
(a deserialized error payload).  The live connection handle carried by the
real `data` item is not modelled (spec section 3, Consumer Output Item). -/
inductive Output (V E : Type) where
  | connecting
  | data (v : V)
  | serializedError (e : E)
deriving DecidableEq, Repr

/-- Recogniser for the `connecting` output variant. -/
def isConnecting {V E : Type} : Output V E → Bool
  | Output.connecting => true
  | _ => false

/-- The data values carried by an output sequence, in order. -/
def dataValues {V E : Type} : List (Output V E) → List V :=
  List.filterMap (fun o =>
    match o with
    | Output.data v => some v
    | _ => none)

/-- Modelled from the spec: the consumer's handling of one dispatched
message.  If the message carries an id, `lastEventId` is updated
unconditionally — before and regardless of payload deserialization (spec
section 4.2, Open → Open).  A `connected` lifecycle message produces no
output item.  Otherwise the payload is deserialized by the injected
`deserialize` function, which distinguishes the tagged serialized-error
shape (`Sum.inl`) from ordinary data (`Sum.inr`) and may fail (`none`, in
which case the frame is skipped and the stream continues, spec
section 7.4). -/
def handleMessage {V E : Type} (deserialize : String → Option (E ⊕ V))
    (st : Option String) (m : Message) : Option String × List (Output V E) :=
  let st' : Option String :=
    match m.evId with
    | some i => some i
    | none => st
  if m.name = some "connected" then (st', [])
  else
    match deserialize m.data with
    | some (Sum.inl e) => (st', [Output.serializedError e])
    | some (Sum.inr v) => (st', [Output.data v])
    | none => (st', [])

/-- The consumer's fold over the dispatched messages of one connection,
threading `lastEventId`. -/
def consumeMessages {V E : Type} (deserialize : String → Option (E ⊕ V))
    (st : Option String) : List Message → Option String × List (Output V E)
  | [] => (st, [])
  | m :: ms =>
      let r := handleMessage deserialize st m
      let rest := consumeMessages deserialize r.1 ms
      (rest.1, r.2 ++ rest.2)

/-- Modelled from the spec: the consumer's processing of the wire lines
received on one connection (parse, then fold). -/
def consumeConn {V E : Type} (deserialize : String → Option (E ⊕ V))
    (st : Option String) (ls : List WireLine) :
    Option String × List (Output V E) :=
  consumeMessages deserialize st (parseEvents ls)

/-- Modelled from the spec: the consumer's reconnection loop
(`sseStreamConsumer`).  Each element of `conns` is the lines received on
one connection attempt before it closed; every attempt first emits one
`connecting` output item, and `lastEventId` is carried from one connection
to the next (spec section 4.2, Idle → Connecting and Open → Connecting). -/
def consumeRun {V E : Type} (deserialize : String → Option (E ⊕ V))
    (st : Option String) : List (List WireLine) →
    Option String × List (Output V E)
  | [] => (st, [])
  | c :: cs =>
      let r := consumeConn deserialize st c
      let rest := consumeRun deserialize r.1 cs
      (rest.1, Output.connecting :: (r.2 ++ rest.2))

/-- Modelled from the spec: the resumption behaviour expected of the
producer-side source collaborator — fed the consumer's last-seen id, it
resumes the logical stream right after the envelope bearing that id; fed
no id, it restarts from the beginning (spec sections 4.1, 8 Resumption
correctness). -/
def dropThrough {V : Type} : List (String × V) → String → List (String × V)
  | [], _ => []
  | p :: ps, i => if p.1 = i then ps else dropThrough ps i

/-- Resume a logical stream after an optional last-seen id. -/
def resumeAfter {V : Type} (xs : List (String × V)) :
    Option String → List (String × V)
  | none => xs
  | some i => dropThrough xs i

/-- The tracked envelopes of a logical stream given as (id, value) pairs. -/
def envItems {V : Type} (xs : List (String × V)) : List (StreamItem V) :=
  xs.map (fun p => StreamItem.envelope p.1 p.2)

/-- A source run in which every item is synchronously available. -/
def valuePulls {V E : Type} (items : List (StreamItem V)) : List (Pull V E) :=
  items.map Pull.value

/-- The id of the last envelope of `ys`, defaulting to `st` when `ys` is
empty — exactly how the consumer's `lastEventId` evolves over a run of
tracked envelopes. -/
def lastIdFrom {V : Type} (st : Option String) (ys : List (String × V)) :
    Option String :=
  ys.foldl (fun _ p => some p.1) st

/-- Modelled from the spec: the end-to-end resumption scenario of spec
section 8.  The consumer receives the first `k` envelopes of the logical
stream `xs` on a first connection, the connection drops, the consumer
reconnects supplying its `lastEventId`, and the producer — fed that id —
resumes via `resumeAfter`.  The result is the concatenated sequence of
data values the consumer received across both connections. -/
def e2eValues {V E : Type} (cfg : ProducerCfg V E)
    (deserialize : String → Option (E ⊕ V)) (xs : List (String × V))
    (k : Nat) : List V :=
  let conn1 := (produce cfg (valuePulls (envItems (xs.take k)))).1
  let r1 := consumeConn deserialize none conn1
  let conn2 := (produce cfg (valuePulls (envItems (resumeAfter xs r1.1)))).1
  let r2 := consumeConn deserialize r1.1 conn2
  dataValues (r1.2 ++ r2.2)

/-- A chunk of wire traffic: either one serialized wire event or one
heartbeat.  Used to state that heartbeats inserted between wire events are
invisible to the consumer. -/
inductive Chunk where
  | event (e : SSEvent)
  | heartbeat
deriving DecidableEq, Repr

/-- The lines of one chunk. -/
def chunkLines : Chunk → List WireLine
  | Chunk.event e => eventLines e
  | Chunk.heartbeat => heartbeatLines

/-- The lines of a sequence of chunks. -/
def chunksLines (cs : List Chunk) : List WireLine :=
  cs.flatMap chunkLines

/-- Recogniser for the heartbeat chunk. -/
def isHeartbeat : Chunk → Bool
  | Chunk.heartbeat => true
  | Chunk.event _ => false

/-- Modelled from the spec: a listener-ledger event — a connection attempt
registering a listener (on the connect capability or on the producer's
source) or releasing it again (spec sections 4.2 Any → Closed and 5). -/
inductive ResEvent where
  | register (tag : Nat)
  | release (tag : Nat)
deriving DecidableEq, Repr

/-- Apply one ledger event to the set of live listeners. -/
def applyRes (live : List Nat) : ResEvent → List Nat
  | ResEvent.register t => t :: live
  | ResEvent.release t => live.erase t

/-- Modelled from the spec: the listener ledger of one connection attempt
`i` — the consumer registers its listener on the connect capability and the
producer registers one on its source; when the attempt ends (transport
error before a reconnect, or the final cancellation) both are released
before anything else happens (spec sections 4.1.5, 4.2 Any → Closed, 5:
a new connection is opened only after the previous one has fully closed
and its listeners removed). -/
def attemptTrace (i : Nat) : List ResEvent :=
  [ResEvent.register (2 * i), ResEvent.register (2 * i + 1),
   ResEvent.release (2 * i + 1), ResEvent.release (2 * i)]

/-- The listener ledger of a full consumer run with `attempts` connection
attempts followed by cancellation. -/
def runTrace (attempts : Nat) : List ResEvent :=
  (List.range attempts).flatMap attemptTrace

/-- The live listeners remaining after a full consumer run. -/
def liveAfterRun (attempts : Nat) : List Nat :=
  (runTrace attempts).foldl applyRes []

/-- Concrete payload deserializer used to instantiate round-trip
hypotheses on small inputs: values are `Fin 3` encoded by `Nat.repr`,
errors are tagged with a leading `E`. -/
def smallDeserialize (s : String) : Option (Nat ⊕ Fin 3) :=
  if s = "0" then some (Sum.inr 0)
  else if s = "1" then some (Sum.inr 1)
  else if s = "2" then some (Sum.inr 2)
  else if s = "E7" then some (Sum.inl 7)
  else none

/-- Concrete producer configuration matching `smallDeserialize`. -/
def smallCfg : ProducerCfg (Fin 3) Nat :=
  { serialize := fun v => Nat.repr v.val
    serializeErr := fun e => String.append "E" (Nat.repr e)
    emitAndEndImmediately := false }

/-- `smallCfg` with `emitAndEndImmediately` set. -/
def smallCfgEnd : ProducerCfg (Fin 3) Nat :=
  { smallCfg with emitAndEndImmediately := true }

theorem parseEventsAux_eventLines (e : SSEvent) (rest : List WireLine) :
    parseEventsAux emptyEvent (eventLines e ++ rest) =
      dispatch e ++ parseEventsAux emptyEvent rest := by
  obtain ⟨n, d, i⟩ := e
  cases n <;> cases d <;> cases i <;>
    simp [eventLines, parseEventsAux, setField, dispatch, emptyEvent]

theorem parseEventsAux_heartbeat (rest : List WireLine) :
    parseEventsAux emptyEvent (heartbeatLines ++ rest) =
      parseEventsAux emptyEvent rest := by
  simp [heartbeatLines, parseEventsAux, dispatch, emptyEvent]

theorem consumeMessages_append {V E : Type}
    (d : String → Option (E ⊕ V)) (st : Option String)
    (ms ns : List Message) :
    consumeMessages d st (ms ++ ns) =
      ((consumeMessages d (consumeMessages d st ms).1 ns).1,
        (consumeMessages d st ms).2 ++
          (consumeMessages d (consumeMessages d st ms).1 ns).2) := by
  induction ms generalizing st with
  | nil => simp [consumeMessages]
  | cons m ms ih => simp [consumeMessages, ih]

theorem produceAux_valuePulls_append {V E : Type} (cfg : ProducerCfg V E)
    (items : List (StreamItem V)) (rest : List (Pull V E)) :
    produceAux cfg (valuePulls items ++ rest) =
      (items.flatMap (fun it => eventLines (itemEvent cfg it)) ++
        (produceAux cfg rest).1, (produceAux cfg rest).2) := by
  induction items with
  | nil => simp [valuePulls]
  | cons it items ih => simp [valuePulls, produceAux] at ih ⊢; simp [ih]

theorem parseEventsAux_flatMap {V E : Type} (cfg : ProducerCfg V E)
    (items : List (StreamItem V)) (rest : List WireLine) :
    parseEventsAux emptyEvent
        (items.flatMap (fun it => eventLines (itemEvent cfg it)) ++ rest) =
      items.flatMap (fun it => dispatch (itemEvent cfg it)) ++
        parseEventsAux emptyEvent rest := by
  induction items with
  | nil => simp
  | cons it items ih =>
      simp only [List.flatMap_cons, List.append_assoc]
      rw [parseEventsAux_eventLines, ih]

theorem lastIdFrom_cons {V : Type} (st : Option String) (p : String × V)
    (ys : List (String × V)) :
    lastIdFrom st (p :: ys) = lastIdFrom (some p.1) ys := by
  simp [lastIdFrom]

theorem lastIdFrom_irrel {V : Type} (a b : Option String) (p : String × V)
    (ys : List (String × V)) :
    lastIdFrom a (p :: ys) = lastIdFrom b (p :: ys) := by
  simp [lastIdFrom]

theorem lastIdFrom_mem {V : Type} (ys : List (String × V)) (a : Option String)
    (hne : ys ≠ []) : ∃ j, lastIdFrom a ys = some j ∧ j ∈ ys.map Prod.fst := by
  induction ys generalizing a with
  | nil => exact absurd rfl hne
  | cons p ps ih =>
      rw [lastIdFrom_cons]
      cases ps with
      | nil => exact ⟨p.1, by simp [lastIdFrom], by simp⟩
      | cons q qs =>
          obtain ⟨j, hj, hjm⟩ := ih (some p.1) (by simp)
          exact ⟨j, hj, by simpa using Or.inr (by simpa using hjm)⟩

theorem consumeMessages_envs {V E : Type} (cfg : ProducerCfg V E)
    (d : String → Option (E ⊕ V))
    (hrt : ∀ v, d (cfg.serialize v) = some (Sum.inr v))
    (xs : List (String × V)) (st : Option String) :
    consumeMessages d st
        ((envItems xs).flatMap (fun it => dispatch (itemEvent cfg it))) =
      (lastIdFrom st xs, xs.map (fun p => Output.data p.2)) := by
  induction xs generalizing st with
  | nil => simp [envItems, consumeMessages, lastIdFrom]
  | cons p ps ih =>
      have h1 : (envItems (p :: ps)).flatMap
            (fun it => dispatch (itemEvent cfg it)) =
          { name := none, data := cfg.serialize p.2, evId := some p.1 } ::
            (envItems ps).flatMap (fun it => dispatch (itemEvent cfg it)) := by
        simp [envItems, itemEvent, dispatch]
      have h2 : handleMessage d st
            { name := none, data := cfg.serialize p.2, evId := some p.1 } =
          (some p.1, [Output.data p.2]) := by
        simp [handleMessage, hrt p.2]
      rw [h1, lastIdFrom_cons]
      simp only [consumeMessages, h2]
      rw [ih (some p.1)]
      simp

theorem consumeConn_produce_envs {V E : Type} (cfg : ProducerCfg V E)
    (d : String → Option (E ⊕ V))
    (hrt : ∀ v, d (cfg.serialize v) = some (Sum.inr v))
    (xs : List (String × V)) (st : Option String) :
    consumeConn d st (produce cfg (valuePulls (envItems xs))).1 =
      (lastIdFrom st xs, xs.map (fun p => Output.data p.2)) := by
  have hprod : (produce cfg (valuePulls (envItems xs))).1 =
      eventLines connectedEvent ++
        ((envItems xs).flatMap (fun it => eventLines (itemEvent cfg it)) ++
          []) := by
    have := produceAux_valuePulls_append cfg (envItems xs) []
    simp only [List.append_nil] at this ⊢
    simp [produce, this, produceAux]
  have hparse : parseEvents (produce cfg (valuePulls (envItems xs))).1 =
      { name := some "connected", data := "\x7b\x7d", evId := none } ::
        (envItems xs).flatMap (fun it => dispatch (itemEvent cfg it)) := by
    rw [hprod]
    show parseEventsAux emptyEvent _ = _
    rw [parseEventsAux_eventLines, parseEventsAux_flatMap]
    simp [connectedEvent, dispatch, parseEventsAux]
  have hconn : handleMessage d st
      { name := some "connected", data := "\x7b\x7d", evId := none } =
      (st, []) := by
    simp [handleMessage]
  unfold consumeConn
  rw [hparse]
  simp only [consumeMessages, hconn]
  rw [consumeMessages_envs cfg d hrt xs st]
  simp

theorem dataValues_append {V E : Type} (xs ys : List (Output V E)) :
    dataValues (xs ++ ys) = dataValues xs ++ dataValues ys := by
  simp [dataValues]

theorem dataValues_dataMap {V E : Type} (xs : List (String × V)) :
    dataValues (E := E) (xs.map (fun p => Output.data p.2)) =
      xs.map Prod.snd := by
  induction xs with
  | nil => simp [dataValues]
  | cons p ps ih => simp [dataValues] at ih ⊢; exact ih

theorem stitch {V : Type} (xs : List (String × V)) (k : Nat)
    (hnd : (xs.map Prod.fst).Nodup) (hk : k ≤ xs.length) :
    (xs.take k).map Prod.snd ++
        (resumeAfter xs (lastIdFrom none (xs.take k))).map Prod.snd =
      xs.map Prod.snd := by
  induction xs generalizing k with
  | nil => simp [resumeAfter, lastIdFrom]
  | cons p ps ih =>
      cases k with
      | zero => simp [resumeAfter, lastIdFrom]
      | succ k =>
          rw [List.take_succ_cons, lastIdFrom_cons]
          cases k with
          | zero =>
              simp [lastIdFrom, resumeAfter, dropThrough]
          | succ k =>
              have hk' : k + 1 ≤ ps.length := by
                simpa using Nat.le_of_succ_le_succ hk
              have hps : ps ≠ [] := by
                intro h
                rw [h] at hk'
                exact absurd hk' (by simp)
              have htk : ps.take (k + 1) ≠ [] := by
                simp [List.take_eq_nil_iff, hps]
              obtain ⟨j, hj, hjm⟩ := lastIdFrom_mem (ps.take (k + 1))
                (some p.1) htk
              have hjps : j ∈ ps.map Prod.fst := by
                have : j ∈ (ps.map Prod.fst).take (k + 1) := by
                  simpa [List.map_take] using hjm
                exact List.take_subset _ _ this
              have hnds : (p.1 :: ps.map Prod.fst).Nodup := by
                simpa using hnd
              have hne : p.1 ≠ j := by
                intro h
                exact (List.nodup_cons.mp hnds).1 (h ▸ hjps)
              have hj0 : lastIdFrom none (ps.take (k + 1)) = some j := by
                rcases htk' : ps.take (k + 1) with _ | ⟨q, qs⟩
                · exact absurd htk' htk
                · rw [htk'] at hj
                  rw [lastIdFrom_irrel none (some p.1)]
                  exact hj
              rw [hj]
              have hdrop : resumeAfter (p :: ps) (some j) =
                  resumeAfter ps (some j) := by
                simp [resumeAfter, dropThrough, hne]
              rw [hdrop, ← hj0]
              have hnd' : (ps.map Prod.fst).Nodup :=
                (List.nodup_cons.mp hnds).2
              have := ih (k + 1) hnd' hk'
              simpa using this

/-- C1: for every sequence of N tracked envelopes with strictly increasing
ids, if the connection is dropped after the consumer has received the
first K (K < N) and the consumer reconnects supplying the last-seen id
(the producer resuming right after that id), then the sequence of values
the consumer receives, concatenated across both connections, equals the
original N values, each exactly once and in order. -/
theorem c1_resumption_roundtrip {V E : Type} (cfg : ProducerCfg V E)
    (d : String → Option (E ⊕ V)) (xs : List (String × V)) (k : Nat)
    (hinc : (xs.map Prod.fst).Pairwise (fun a b => a < b))
    (hk : k < xs.length)
    (hrt : ∀ v, d (cfg.serialize v) = some (Sum.inr v)) :
    e2eValues cfg d xs k = xs.map Prod.snd := by
  have hnd : (xs.map Prod.fst).Nodup := hinc.imp (fun h => ne_of_lt h)
  simp only [e2eValues, consumeConn_produce_envs cfg d hrt]
  rw [dataValues_append, dataValues_dataMap, dataValues_dataMap]
  exact stitch xs k hnd (le_of_lt hk)

/-- Witness for `c1_resumption_roundtrip`: a concrete three-envelope
logical stream with ids "1" < "2" < "3", dropped after the first two
envelopes. -/
theorem c1_resumption_roundtrip_witness :
    ((([("1", (0 : Fin 3)), ("2", 1), ("3", 2)].map
          Prod.fst).Pairwise (fun a b => a < b)) ∧
      2 < [("1", (0 : Fin 3)), ("2", 1), ("3", 2)].length ∧
      (∀ v : Fin 3, smallDeserialize (smallCfg.serialize v) =
        some (Sum.inr v))) ∧
    e2eValues smallCfg smallDeserialize
        [("1", (0 : Fin 3)), ("2", 1), ("3", 2)] 2 =
      [("1", (0 : Fin 3)), ("2", 1), ("3", 2)].map Prod.snd :=
  ⟨⟨by simp [String.lt_iff_toList_lt]; decide, by decide, by decide⟩,
    c1_resumption_roundtrip smallCfg smallDeserialize
      [("1", (0 : Fin 3)), ("2", 1), ("3", 2)] 2
      (by simp [String.lt_iff_toList_lt]; decide) (by decide) (by decide)⟩

/-- C2: when the producer is started with `emitAndEndImmediately` set, it
emits the connected marker, then every value that is synchronously
available from the source, and then closes the sink ending the connection —
without blocking on (or reading) anything past the first suspension
point. -/
theorem c2_emit_and_end_immediately {V E : Type} (cfg : ProducerCfg V E)
    (items : List (StreamItem V)) (rest : List (Pull V E))
    (hmode : cfg.emitAndEndImmediately = true) :
    produce cfg (valuePulls items ++ Pull.pending :: rest) =
      (eventLines connectedEvent ++
        items.flatMap (fun it => eventLines (itemEvent cfg it)), true) := by
  unfold produce
  rw [produceAux_valuePulls_append]
  simp [produceAux, hmode]

/-- Witness for `c2_emit_and_end_immediately`: one synchronously available
tracked envelope followed by a suspension point. -/
theorem c2_emit_and_end_immediately_witness :
    smallCfgEnd.emitAndEndImmediately = true ∧
    produce smallCfgEnd
        (valuePulls [StreamItem.envelope "1" (0 : Fin 3)] ++
          Pull.pending :: [Pull.done]) =
      (eventLines connectedEvent ++
        [StreamItem.envelope "1" (0 : Fin 3)].flatMap
          (fun it => eventLines (itemEvent smallCfgEnd it)), true) :=
  ⟨by decide,
    c2_emit_and_end_immediately smallCfgEnd
      [StreamItem.envelope "1" (0 : Fin 3)] [Pull.done] (by decide)⟩

/-- C3: on every start of the producer, the first wire event written is the
`connected` lifecycle event — its three lines come first on the wire and
the first parsed message is the connected marker, before any data event,
whatever the source yields (including nothing at all). -/
theorem c3_connected_first {V E : Type} (cfg : ProducerCfg V E)
    (pulls : List (Pull V E)) :
    (produce cfg pulls).1.take 3 = eventLines connectedEvent ∧
    (parseEvents (produce cfg pulls).1).head? =
      some { name := some "connected", data := "\x7b\x7d", evId := none } := by
  constructor
  · simp [produce, eventLines, connectedEvent]
  · show (parseEventsAux emptyEvent _).head? = _
    unfold produce
    simp only []
    rw [parseEventsAux_eventLines]
    simp [connectedEvent, dispatch]

/-- C4: every wire event the producer emits has each field on its own line
and is terminated by a blank line; for a tracked envelope the `data:` line
precedes the `id:` line, and for an item without an id no `id:` line is
emitted. -/
theorem c4_wire_event_shape :
    (∀ e : SSEvent, (eventLines e).getLast? = some WireLine.blank) ∧
    (∀ (V E : Type) (cfg : ProducerCfg V E) (i : String) (v : V),
      eventLines (itemEvent cfg (StreamItem.envelope i v)) =
        [WireLine.field FieldName.data (cfg.serialize v),
         WireLine.field FieldName.id i, WireLine.blank]) ∧
    (∀ (V E : Type) (cfg : ProducerCfg V E) (v : V),
      eventLines (itemEvent cfg (StreamItem.bare v)) =
        [WireLine.field FieldName.data (cfg.serialize v), WireLine.blank]) := by
  refine ⟨?_, ?_, ?_⟩
  · intro e
    obtain ⟨n, d, i⟩ := e
    cases n <;> cases d <;> cases i <;> simp [eventLines]
  · intro V E cfg i v
    simp [eventLines, itemEvent]
  · intro V E cfg v
    simp [eventLines, itemEvent]

/-- C5: for every received data frame that carries an id, the consumer
updates its `lastEventId` checkpoint to that id unconditionally — for
every deserializer, including ones that fail on the frame's payload, and
whatever the event name — so that a reconnect never re-requests a frame
already seen on the wire. -/
theorem c5_lastEventId_unconditional (V E : Type)
    (d : String → Option (E ⊕ V)) (st : Option String)
    (nm : Option String) (payload : String) (i : String) :
    (handleMessage d st { name := nm, data := payload, evId := some i }).1 =
      some i := by
  rcases h : d payload with _ | (e | v) <;>
    by_cases hn : nm = some "connected" <;>
      simp [handleMessage, h, hn]

theorem parseEvents_chunks_filter (cs : List Chunk) :
    parseEvents (chunksLines cs) =
      parseEvents (chunksLines (cs.filter (fun c => ! isHeartbeat c))) := by
  induction cs with
  | nil => rfl
  | cons c cs ih =>
      simp only [parseEvents] at ih ⊢
      cases c with
      | heartbeat =>
          have h1 : chunksLines (Chunk.heartbeat :: cs) =
              heartbeatLines ++ chunksLines cs := by
            simp [chunksLines, chunkLines]
          have h2 : (Chunk.heartbeat :: cs).filter (fun c => ! isHeartbeat c) =
              cs.filter (fun c => ! isHeartbeat c) := by
            simp [isHeartbeat]
          rw [h1, h2, parseEventsAux_heartbeat, ih]
      | event e =>
          have h1 : chunksLines (Chunk.event e :: cs) =
              eventLines e ++ chunksLines cs := by
            simp [chunksLines, chunkLines]
          have h2 : (Chunk.event e :: cs).filter (fun c => ! isHeartbeat c) =
              Chunk.event e :: cs.filter (fun c => ! isHeartbeat c) := by
            simp [isHeartbeat]
          have h3 : chunksLines
                (Chunk.event e :: cs.filter (fun c => ! isHeartbeat c)) =
              eventLines e ++
                chunksLines (cs.filter (fun c => ! isHeartbeat c)) := by
            simp [chunksLines, chunkLines]
          rw [h1, h2, h3, parseEventsAux_eventLines, parseEventsAux_eventLines,
            ih]

/-- C6: inserting arbitrary heartbeat frames between the wire events of any
input leaves the consumer's decoded output unchanged — the parser skips
heartbeats as no-ops and a heartbeat dispatches no message at all (in
particular it carries no id and yields no output item of any kind). -/
theorem c6_heartbeat_invisibility :
    (∀ (V E : Type) (d : String → Option (E ⊕ V)) (st : Option String)
      (cs : List Chunk),
      consumeConn d st (chunksLines cs) =
        consumeConn d st (chunksLines (cs.filter (fun c => ! isHeartbeat c)))) ∧
    parseEvents heartbeatLines = [] := by
  constructor
  · intro V E d st cs
    unfold consumeConn
    rw [parseEvents_chunks_filter]
  · simpa using parseEventsAux_heartbeat []

theorem countP_connecting_handleMessage {V E : Type}
    (d : String → Option (E ⊕ V)) (st : Option String) (m : Message) :
    ((handleMessage d st m).2.countP (fun o => isConnecting o)) = 0 := by
  rcases h : d m.data with _ | (e | v) <;>
    by_cases hn : m.name = some "connected" <;>
      rcases hi : m.evId with _ | j <;>
        simp [handleMessage, h, hn, hi, isConnecting]

theorem countP_connecting_consumeMessages {V E : Type}
    (d : String → Option (E ⊕ V)) (st : Option String) (ms : List Message) :
    ((consumeMessages d st ms).2.countP (fun o => isConnecting o)) = 0 := by
  induction ms generalizing st with
  | nil => rfl
  | cons m ms ih =>
      simp only [consumeMessages, List.countP_append]
      rw [countP_connecting_handleMessage, ih]

/-- C7: every run of the consumer emits exactly one `connecting` output
item per (re)connection attempt — after A attempts (the elements of
`conns`) the output sequence contains exactly A `connecting` items. -/
theorem c7_connecting_per_attempt (V E : Type)
    (d : String → Option (E ⊕ V)) (st : Option String)
    (conns : List (List WireLine)) :
    ((consumeRun d st conns).2.countP (fun o => isConnecting o)) =
      conns.length := by
  induction conns generalizing st with
  | nil => rfl
  | cons c cs ih =>
      simp only [consumeRun, consumeConn, List.countP_cons, List.countP_append]
      rw [countP_connecting_consumeMessages, ih]
      simp [isConnecting]

/-- C8: when the producer's source throws, the producer serializes the
error (tagged distinctly from data, here on the error side of the injected
deserializer), writes it as the final wire event before closing the sink
(the close flag is true and the producer returns normally instead of
rethrowing), and the consumer surfaces that frame as a `serializedError`
output item whose deserialized value equals the original error's
serializable form. -/
theorem c8_error_roundtrip {V E : Type} (cfg : ProducerCfg V E)
    (d : String → Option (E ⊕ V)) (st : Option String) (e : E)
    (items : List (StreamItem V))
    (herr : d (cfg.serializeErr e) = some (Sum.inl e)) :
    (produce cfg (valuePulls items ++ [Pull.fail e])).2 = true ∧
    (parseEvents
        (produce cfg (valuePulls items ++ [Pull.fail e])).1).getLast? =
      some { name := none, data := cfg.serializeErr e, evId := none } ∧
    ((consumeConn d st
        (produce cfg (valuePulls items ++ [Pull.fail e])).1).2).getLast? =
      some (Output.serializedError e) := by
  have hfail : produceAux cfg [Pull.fail e] =
      (eventLines { name := none, data := some (cfg.serializeErr e),
                    evId := none }, true) := by
    simp [produceAux]
  have h1 : (produce cfg (valuePulls items ++ [Pull.fail e])).1 =
      eventLines connectedEvent ++
        (items.flatMap (fun it => eventLines (itemEvent cfg it)) ++
          eventLines { name := none, data := some (cfg.serializeErr e),
                       evId := none }) := by
    unfold produce
    rw [produceAux_valuePulls_append, hfail]
  have h2 : (produce cfg (valuePulls items ++ [Pull.fail e])).2 = true := by
    unfold produce
    rw [produceAux_valuePulls_append, hfail]
  have h3 : parseEvents (produce cfg (valuePulls items ++ [Pull.fail e])).1 =
      { name := some "connected", data := "\x7b\x7d", evId := none } ::
        (items.flatMap (fun it => dispatch (itemEvent cfg it)) ++
          [{ name := none, data := cfg.serializeErr e, evId := none }]) := by
    rw [h1]
    show parseEventsAux emptyEvent _ = _
    rw [parseEventsAux_eventLines, parseEventsAux_flatMap]
    have h4 : parseEventsAux emptyEvent
        (eventLines { name := none, data := some (cfg.serializeErr e),
                      evId := none }) =
        [{ name := none, data := cfg.serializeErr e, evId := none }] := by
      have h5 := parseEventsAux_eventLines
        { name := none, data := some (cfg.serializeErr e), evId := none } []
      simp only [List.append_nil] at h5
      simpa [dispatch, parseEventsAux] using h5
    rw [h4]
    simp [connectedEvent, dispatch]
  refine ⟨h2, ?_, ?_⟩
  · rw [h3, ← List.cons_append, List.getLast?_concat]
  · have hconn : handleMessage d st
        { name := some "connected", data := "\x7b\x7d", evId := none } =
        (st, []) := by
      simp [handleMessage]
    have herrm : ∀ s : Option String, handleMessage d s
        { name := none, data := cfg.serializeErr e, evId := none } =
        (s, [Output.serializedError e]) := by
      intro s
      simp [handleMessage, herr]
    unfold consumeConn
    rw [h3]
    simp only [consumeMessages, hconn, consumeMessages_append, herrm]
    simp only [List.nil_append, List.append_nil]
    rw [List.getLast?_concat]

/-- Witness for `c8_error_roundtrip`: a concrete source that yields one
bare value and then throws the error `7`, consumed with
`smallDeserialize`. -/
theorem c8_error_roundtrip_witness :
    smallDeserialize (smallCfg.serializeErr 7) = some (Sum.inl 7) ∧
    ((produce smallCfg
        (valuePulls [StreamItem.bare (1 : Fin 3)] ++ [Pull.fail 7])).2 = true ∧
    (parseEvents (produce smallCfg
        (valuePulls [StreamItem.bare (1 : Fin 3)] ++
          [Pull.fail 7])).1).getLast? =
      some { name := none, data := smallCfg.serializeErr 7, evId := none } ∧
    ((consumeConn smallDeserialize none
        (produce smallCfg (valuePulls [StreamItem.bare (1 : Fin 3)] ++
          [Pull.fail 7])).1).2).getLast? =
      some (Output.serializedError 7)) :=
  ⟨by decide,
    c8_error_roundtrip smallCfg smallDeserialize none 7
      [StreamItem.bare (1 : Fin 3)] (by decide)⟩

theorem foldl_applyRes_attempt (i : Nat) (live : List Nat) :
    List.foldl applyRes live (attemptTrace i) = live := by
  simp [attemptTrace, applyRes, List.erase_cons_head]

/-- C9: after a consumer run with any number M of forced reconnects (M + 1
connection attempts) followed by final cancellation, every listener
registered on the connect capability or on the producer's source has been
released: the count of live listeners is exactly zero. -/
theorem c9_no_listener_leak (m : Nat) : (liveAfterRun (m + 1)).length = 0 := by
  suffices h : ∀ (l : List Nat) (live : List Nat),
      List.foldl applyRes live (l.flatMap attemptTrace) = live by
    unfold liveAfterRun runTrace
    rw [h (List.range (m + 1)) []]
    rfl
  intro l
  induction l with
  | nil => intro live; rfl
  | cons i l ih =>
      intro live
      rw [List.flatMap_cons, List.foldl_append, foldl_applyRes_attempt, ih]

/-- C10: for every id string and data value, the envelope constructed by
`sse` satisfies the `isTrackedEnvelope` predicate. -/
theorem c10_sse_is_tracked (V : Type) (i : String) (v : V) :
    isTrackedEnvelope (sse i v) = true :=
  rfl
